import Mathlib

/-!
Verification development for the currency-aware fixed-point money core, the
futures-contract factory, and the market-data normalizer of this repository.

Pure Rust functions are embedded as Lean functions over `Int` / `Nat` / `Rat`;
`i64` arithmetic uses unbounded `Int` with explicit range checks where the
source checks (`checked_add` / `checked_sub`) and explicit wrapping where the
source can wrap (`i64` negation).  Fallible Rust results and panics are
embedded in the three-way result type `RResult`.  Strings are embedded as
`List Char`.  Helper modules of the repository that are referenced but whose
source is not available (the fixed-point conversion module, the correctness
check helpers, the currency registry) are modelled from the specification and
marked as such in their doc comments.
-/

/-- Result of a Rust computation: success (`Ok`), recoverable error (`Err`),
or fatal abort-class failure (`panic!` / failed `assert!` / `expect`). -/
inductive RResult (ε α : Type) where
  | ok : α → RResult ε α
  | err : ε → RResult ε α
  | panic : String → RResult ε α
  deriving DecidableEq, Repr

/-- True exactly when the computation aborted fatally. -/
def RResult.isPanic {ε α : Type} : RResult ε α → Bool
  | .panic _ => true
  | _ => false

/-- True exactly when the computation returned a value. -/
def RResult.isOk {ε α : Type} : RResult ε α → Bool
  | .ok _ => true
  | _ => false

/-- The minimum value of Rust `i64`. -/
def I64_MIN : Int := -(2 ^ 63)

/-- The maximum value of Rust `i64`. -/
def I64_MAX : Int := 2 ^ 63 - 1

/-- Rust `i64::checked_add`: `some` of the exact sum when it fits in `i64`,
`none` on overflow (never a wrapped value). -/
def checked_add_i64 (a b : Int) : Option Int :=
  if I64_MIN ≤ a + b ∧ a + b ≤ I64_MAX then some (a + b) else none

/-- Rust `i64::checked_sub`: `some` of the exact difference when it fits in
`i64`, `none` on overflow/underflow (never a wrapped value). -/
def checked_sub_i64 (a b : Int) : Option Int :=
  if I64_MIN ≤ a - b ∧ a - b ≤ I64_MAX then some (a - b) else none

/-- Rust `i64` negation `-a`.  For `a = i64::MIN` the negation overflows and
wraps to `i64::MIN` itself in release builds (two's complement); debug builds
abort there instead, and either way no correct negation is produced. -/
def neg_i64 (a : Int) : Int := if a = I64_MIN then I64_MIN else -a

/-- Rust `char::is_ascii_digit`. -/
def isDigitChar (c : Char) : Bool := 48 ≤ c.toNat && c.toNat ≤ 57

/-- Whitespace as recognized by Rust `str::split_whitespace` (ASCII subset). -/
def isWsChar (c : Char) : Bool := c = ' ' || c = '\t' || c = '\n' || c = '\r'

/-- The ASCII character for a decimal digit value. -/
def digitChar (d : Nat) : Char :=
  match d with
  | 0 => '0'
  | 1 => '1'
  | 2 => '2'
  | 3 => '3'
  | 4 => '4'
  | 5 => '5'
  | 6 => '6'
  | 7 => '7'
  | 8 => '8'
  | _ => '9'

/-- The decimal digit value of an ASCII digit character. -/
def charToDigitD (c : Char) : Nat := c.toNat - 48

/-- Decimal rendering of a natural number, most significant digit first. -/
def natToChars (v : Nat) : List Char :=
  if v = 0 then ['0'] else ((Nat.digits 10 v).map digitChar).reverse

/-- Numeric value of a most-significant-first list of ASCII digit characters. -/
def digitsVal (cs : List Char) : Nat :=
  Nat.ofDigits 10 ((cs.map charToDigitD).reverse)

/-- Zero-pads a natural number's decimal rendering on the left to `p` digits. -/
def padDigits (r p : Nat) : List Char :=
  List.replicate (p - (natToChars r).length) '0' ++ natToChars r

/-- Fixed-point decimal rendering of the non-negative value `v / 10 ^ p` with
exactly `p` fractional digits (no fractional part when `p = 0`). -/
def fmtFixedNat (v p : Nat) : List Char :=
  natToChars (v / 10 ^ p) ++ (if p = 0 then [] else '.' :: padDigits (v % 10 ^ p) p)

/-- Fixed-point decimal rendering of the signed value `n / 10 ^ p` with
exactly `p` fractional digits, with a leading minus sign when negative. -/
def fmtFixed (n : Int) (p : Nat) : List Char :=
  (if n < 0 then ['-'] else []) ++ fmtFixedNat n.natAbs p

/-- Fractional and integer decimal parsing of an unsigned token:
a maximal leading digit run, optionally followed by a point and digit run. -/
def parseUDec (cs : List Char) : Option ℚ :=
  let ip := cs.takeWhile isDigitChar
  match cs.dropWhile isDigitChar with
  | [] => if ip.isEmpty then none else some ((digitsVal ip : ℚ))
  | c :: fp =>
    if c = '.' then
      if fp.all isDigitChar && (!ip.isEmpty || !fp.isEmpty) then
        some ((digitsVal ip : ℚ) + (digitsVal fp : ℚ) / 10 ^ fp.length)
      else none
    else none

/-- Modelled from the spec: Rust `str::parse::<f64>` on the amount token,
restricted to plain signed decimal forms and with the parsed value taken
exactly (floating-point values are embedded as exact rationals). -/
def parseF64 (cs : List Char) : Option ℚ :=
  match cs with
  | [] => none
  | c :: rest =>
    if c = '-' then (parseUDec rest).map (fun q => -q)
    else if c = '+' then parseUDec rest
    else parseUDec (c :: rest)

/-- Accumulator loop for `splitWs`. -/
def splitWsAux : List Char → List Char → List (List Char)
  | [], acc => if acc.isEmpty then [] else [acc.reverse]
  | c :: cs, acc =>
    if isWsChar c then
      if acc.isEmpty then splitWsAux cs [] else acc.reverse :: splitWsAux cs []
    else splitWsAux cs (c :: acc)

/-- Rust `str::split_whitespace().collect()`: maximal non-whitespace runs,
empty tokens never produced. -/
def splitWs (cs : List Char) : List (List Char) := splitWsAux cs []

/-- Accumulator loop for `splitChar`. -/
def splitCharAux (sep : Char) : List Char → List Char → List (List Char)
  | [], acc => [acc.reverse]
  | c :: cs, acc =>
    if c = sep then acc.reverse :: splitCharAux sep cs []
    else splitCharAux sep cs (c :: acc)

/-- Rust `str::split(sep).collect()`: separator-delimited segments, empty
segments kept (the empty string yields one empty segment). -/
def splitChar (sep : Char) (cs : List Char) : List (List Char) :=
  splitCharAux sep cs []

/-- A currency reference entity: a code and a decimal precision.  The currency
module itself is not under src/; `Money` holds a value copy of the pair. -/
structure Currency where
  code : List Char
  precision : Nat
  deriving DecidableEq, Repr

/-- The US dollar entry of the registry (precision 2). -/
def Currency.USD : Currency := ⟨['U', 'S', 'D'], 2⟩

/-- The Australian dollar entry of the registry (precision 2). -/
def Currency.AUD : Currency := ⟨['A', 'U', 'D'], 2⟩

/-- The Bitcoin entry of the registry (precision 8). -/
def Currency.BTC : Currency := ⟨['B', 'T', 'C'], 8⟩

/-- Modelled from the spec: the process-wide immutable currency registry
(ISO and crypto denominations), populated at startup; a representative
finite fragment with the codes used by the repository's tests. -/
def currencyRegistry : List Currency :=
  [Currency.USD, Currency.AUD, Currency.BTC]

/-- Modelled from the spec: `Currency::from_str` looks the code up in the
registry and fails recoverably on an unknown code (the currency module is
not under src/). -/
def Currency.from_str (s : List Char) : RResult String Currency :=
  match currencyRegistry.find? (fun c => c.code == s) with
  | some c => .ok c
  | none => .err ("Unknown currency code")

/-- The fixed global raw scale of the fixed-point representation. -/
def FIXED_PRECISION : Nat := 9

/-- The maximum valid money amount which can be represented. -/
def MONEY_MAX : ℚ := 9223372036

/-- The minimum valid money amount which can be represented. -/
def MONEY_MIN : ℚ := -9223372036

/-- Represents an amount of money in a specified currency denomination:
the raw fixed-point amount (at the fixed 9-digit scale) and the currency. -/
structure Money where
  raw : Int
  currency : Currency
  deriving DecidableEq, Repr

/-- Modelled from the spec: Rust `f64::round`, rounding to the nearest
integer with ties away from zero, on the exact rational embedding. -/
def roundAway (q : ℚ) : Int :=
  if 0 ≤ q then ⌊q + 1 / 2⌋ else -⌊-q + 1 / 2⌋

/-- Modelled from the spec: `f64_to_fixed_i64` of the fixed-point module
(not under src/): scales the amount to `precision` decimal digits, rounds to
the nearest representable integer tick, and rescales to the fixed raw scale. -/
def f64_to_fixed_i64 (value : ℚ) (precision : Nat) : Int :=
  roundAway (value * 10 ^ precision) * 10 ^ (FIXED_PRECISION - precision)

/-- Modelled from the spec: `fixed_i64_to_f64` of the fixed-point module
(not under src/): the raw value read back at the fixed raw scale. -/
def fixed_i64_to_f64 (raw : Int) : ℚ := (raw : ℚ) / 10 ^ FIXED_PRECISION

/-- Modelled from the spec: `check_in_range_inclusive_f64` of the correctness
module (not under src/): recoverable error when the value lies outside the
inclusive range. -/
def check_in_range_inclusive_f64 (value lo hi : ℚ) (param : String) :
    RResult String Unit :=
  if lo ≤ value ∧ value ≤ hi then .ok () else
    .err ("invalid f64 for " ++ param ++ ", not in inclusive range")

/-- `Money::new_checked`: range-checks the amount then converts it to the
raw fixed-point value at the currency's precision. -/
def Money.new_checked (amount : ℚ) (currency : Currency) : RResult String Money :=
  match check_in_range_inclusive_f64 amount MONEY_MIN MONEY_MAX ("amount") with
  | .ok _ => .ok ⟨f64_to_fixed_i64 amount currency.precision, currency⟩
  | .err e => .err e
  | .panic s => .panic s

/-- `Money::new`: `new_checked` with the error escalated to a fatal abort
(`expect(FAILED)`). -/
def Money.new (amount : ℚ) (currency : Currency) : RResult String Money :=
  match Money.new_checked amount currency with
  | .ok m => .ok m
  | .err e => .panic ("Condition failed: " ++ e)
  | .panic s => .panic s

/-- `Money::from_raw`: unchecked construction from a raw value. -/
def Money.from_raw (raw : Int) (currency : Currency) : Money := ⟨raw, currency⟩

/-- `Money::as_f64`. -/
def Money.as_f64 (m : Money) : ℚ := fixed_i64_to_f64 m.raw

/-- Modelled from the spec: Rust `{:.p$}` formatting of the f64 amount with
exactly `p` fractional digits, on the exact rational embedding. -/
def fmtF64 (q : ℚ) (p : Nat) : List Char := fmtFixed (roundAway (q * 10 ^ p)) p

/-- `impl Display for Money`: the amount formatted with exactly
`currency.precision` fractional digits, a space, and the currency code. -/
def Money.toString (m : Money) : List Char :=
  fmtF64 (Money.as_f64 m) m.currency.precision ++ ' ' :: m.currency.code

/-- `impl FromStr for Money`: exactly two whitespace-delimited tokens; the
amount token has `_` separators stripped then is parsed as `f64`; the currency
token is looked up in the registry; the final `Ok(Self::new(..))` escalates an
out-of-range amount to the fatal abort of `Money::new`. -/
def Money.from_str (value : List Char) : RResult String Money :=
  match splitWs value with
  | [amount_str, currency_str] =>
    match parseF64 (amount_str.filter (fun c => c != '_')) with
    | none => .err ("Error parsing amount as f64")
    | some amount =>
      match Currency.from_str currency_str with
      | .err e => .err e
      | .panic s => .panic s
      | .ok currency => Money.new amount currency
  | _ => .err ("Error invalid input format, expected <amount> <currency>")

/-- `impl Neg for Money`: negates the raw value (`i64` negation), keeping
the currency. -/
def Money.neg (m : Money) : Money := ⟨neg_i64 m.raw, m.currency⟩

/-- `impl Add for Money`: asserts equal currency (fatal on mismatch), then
`checked_add` on the raw values (fatal on overflow). -/
def Money.add (x y : Money) : RResult String Money :=
  if x.currency = y.currency then
    match checked_add_i64 x.raw y.raw with
    | some r => .ok ⟨r, x.currency⟩
    | none => .panic ("Overflow occurred when adding Money")
  else .panic ("Currency mismatch: cannot add")

/-- `impl Sub for Money`: asserts equal currency (fatal on mismatch), then
`checked_sub` on the raw values (fatal on underflow). -/
def Money.sub (x y : Money) : RResult String Money :=
  if x.currency = y.currency then
    match checked_sub_i64 x.raw y.raw with
    | some r => .ok ⟨r, x.currency⟩
    | none => .panic ("Underflow occurred when subtracting Money")
  else .panic ("Currency mismatch: cannot subtract")

/-- `impl AddAssign for Money`: same assertion and checked addition as `Add`,
returning the replacement value of `self`. -/
def Money.add_assign (x y : Money) : RResult String Money :=
  if x.currency = y.currency then
    match checked_add_i64 x.raw y.raw with
    | some r => .ok ⟨r, x.currency⟩
    | none => .panic ("Overflow occurred when adding Money")
  else .panic ("Currency mismatch: cannot add")

/-- `impl SubAssign for Money`: same assertion and checked subtraction as
`Sub`, returning the replacement value of `self`. -/
def Money.sub_assign (x y : Money) : RResult String Money :=
  if x.currency = y.currency then
    match checked_sub_i64 x.raw y.raw with
    | some r => .ok ⟨r, x.currency⟩
    | none => .panic ("Underflow occurred when subtracting Money")
  else .panic ("Currency mismatch: cannot subtract")

/-- `impl PartialEq for Money`: raw values and currencies both equal;
no assertion, total. -/
def Money.beq (x y : Money) : Bool :=
  x.raw == y.raw && x.currency == y.currency

/-- `impl Hash for Money`: the data fed to the hasher, in order: the raw
value, then the currency. -/
def Money.hashSeq (m : Money) : Int × Currency := (m.raw, m.currency)

/-- `PartialOrd::lt for Money`: asserts equal currency, then compares raws. -/
def Money.lt (x y : Money) : RResult String Bool :=
  if x.currency = y.currency then .ok (decide (x.raw < y.raw))
  else .panic ("assertion failed: currency mismatch")

/-- `PartialOrd::le for Money`: asserts equal currency, then compares raws. -/
def Money.le (x y : Money) : RResult String Bool :=
  if x.currency = y.currency then .ok (decide (x.raw ≤ y.raw))
  else .panic ("assertion failed: currency mismatch")

/-- `PartialOrd::gt for Money`: asserts equal currency, then compares raws. -/
def Money.gt (x y : Money) : RResult String Bool :=
  if x.currency = y.currency then .ok (decide (y.raw < x.raw))
  else .panic ("assertion failed: currency mismatch")

/-- `PartialOrd::ge for Money`: asserts equal currency, then compares raws. -/
def Money.ge (x y : Money) : RResult String Bool :=
  if x.currency = y.currency then .ok (decide (y.raw ≤ x.raw))
  else .panic ("assertion failed: currency mismatch")

/-- `Ord::cmp for Money`: asserts equal currency, then compares raws. -/
def Money.cmp (x y : Money) : RResult String Ordering :=
  if x.currency = y.currency then .ok (compare x.raw y.raw)
  else .panic ("assertion failed: currency mismatch")

/-- The aggregation method of a bar (the variants used by the normalizer). -/
inductive BarAggregation where
  | Millisecond
  | Second
  | Minute
  | Tick
  | Volume
  deriving DecidableEq, Repr

/-- The price basis of a bar. -/
inductive PriceType where
  | Last
  deriving DecidableEq, Repr

/-- A bar specification: step, aggregation unit, and price basis. -/
structure BarSpecification where
  step : Nat
  aggregation : BarAggregation
  price_type : PriceType
  deriving DecidableEq, Repr

/-- The maximum value of Rust `usize` on 64-bit targets. -/
def USIZE_MAX : Nat := 2 ^ 64 - 1

/-- Rust `str::parse::<usize>` on a token taken from a leading digit run:
fails on an empty token or on overflow past `usize::MAX`, never wraps. -/
def parseUsize (cs : List Char) : Option Nat :=
  if cs.isEmpty then none
  else if cs.all isDigitChar then
    if digitsVal cs ≤ USIZE_MAX then some (digitsVal cs) else none
  else none

/-- `parse_bar_spec` from the Tardis normalizer: split on `_`, take the last
segment, split it at the first non-digit position into step digits and a unit
suffix, parse the step, and map the suffix; `price_type` is always `Last`.
The Rust `match` on string literals is rendered as an equality chain. -/
def parse_bar_spec (value : List Char) : RResult String BarSpecification :=
  match (splitChar '_' value).getLast? with
  | none => .panic ("Invalid bar spec")
  | some last_part =>
    match last_part.findIdx? (fun c => !(isDigitChar c)) with
    | none => .panic ("Invalid bar spec")
    | some split_idx =>
      let step_str := last_part.take split_idx
      let suffix := last_part.drop split_idx
      match parseUsize step_str with
      | none => .panic ("Invalid step")
      | some step =>
        if suffix = ['m', 's'] then .ok ⟨step, .Millisecond, .Last⟩
        else if suffix = ['s'] then .ok ⟨step, .Second, .Last⟩
        else if suffix = ['m'] then .ok ⟨step, .Minute, .Last⟩
        else if suffix = ['t', 'i', 'c', 'k', 's'] then .ok ⟨step, .Tick, .Last⟩
        else if suffix = ['v', 'o', 'l'] then .ok ⟨step, .Volume, .Last⟩
        else .panic ("Unsupported bar aggregation type")

/-- A ticker symbol (`Symbol` in the source; the name `Symbol` is taken in
this Lean environment), embedded as its character list. -/
abbrev SymbolStr := List Char

/-- An interned string (`Ustr`). -/
abbrev Ustr := List Char

/-- A nanosecond UNIX timestamp. -/
abbrev UnixNanos := Nat

/-- An instrument identifier: a symbol and a venue. -/
structure InstrumentId where
  symbol : SymbolStr
  venue : List Char
  deriving DecidableEq, Repr

/-- Asset classes of the instrument model (representative variants). -/
inductive AssetClass where
  | FX
  | Equity
  | Commodity
  | Index
  deriving DecidableEq, Repr

/-- A fixed-point price: raw value and precision. -/
structure Price where
  raw : Int
  precision : Nat
  deriving DecidableEq, Repr

/-- A fixed-point quantity: raw value and precision. -/
structure Quantity where
  raw : Nat
  precision : Nat
  deriving DecidableEq, Repr

/-- Modelled from the spec: `Quantity::from(n)` for a whole number `n` —
precision 0, raw value at the fixed raw scale (the quantity module is not
under src/). -/
def Quantity.fromNat (n : Nat) : Quantity := ⟨n * 10 ^ FIXED_PRECISION, 0⟩

/-- Arbitrary-precision decimal (`rust_decimal::Decimal`), embedded as an
exact rational. -/
abbrev Decimal := ℚ

/-- Modelled from the spec: `check_valid_string` of the correctness module
(not under src/): the string must be non-empty when trimmed; the error names
the parameter it was given. -/
def check_valid_string (s : List Char) (param : String) : RResult String Unit :=
  if s.dropWhile isWsChar = [] then
    .err ("invalid string for " ++ param)
  else .ok ()

/-- Modelled from the spec: `check_valid_string_optional` of the correctness
module (not under src/): `None` passes, `Some` is checked. -/
def check_valid_string_optional (s : Option (List Char)) (param : String) :
    RResult String Unit :=
  match s with
  | none => .ok ()
  | some v => check_valid_string v param

/-- Modelled from the spec: `check_equal_u8` of the correctness module (not
under src/). -/
def check_equal_u8 (lhs rhs : Nat) (lhs_param rhs_param : String) :
    RResult String Unit :=
  if lhs = rhs then .ok () else
    .err ("u8 values were not equal: " ++ lhs_param ++ " and " ++ rhs_param)

/-- Modelled from the spec: `check_positive_i64` of the correctness module
(not under src/). -/
def check_positive_i64 (value : Int) (param : String) : RResult String Unit :=
  if 0 < value then .ok () else .err (param ++ " was not positive")

/-- A deliverable futures contract instrument, field for field as in the
source struct. -/
structure FuturesContract where
  id : InstrumentId
  raw_symbol : SymbolStr
  asset_class : AssetClass
  exchange : Option Ustr
  underlying : Ustr
  activation_ns : UnixNanos
  expiration_ns : UnixNanos
  currency : Currency
  price_precision : Nat
  price_increment : Price
  size_increment : Quantity
  size_precision : Nat
  multiplier : Quantity
  lot_size : Quantity
  margin_init : Decimal
  margin_maint : Decimal
  max_quantity : Option Quantity
  min_quantity : Option Quantity
  max_price : Option Price
  min_price : Option Price
  ts_event : UnixNanos
  ts_init : UnixNanos
  deriving DecidableEq, Repr

/-- `FuturesContract::new_checked`: the four validations in source order —
the exchange check is passed the literal parameter name `isin` exactly as in
the source — then the construction with `size_precision = 0`,
`size_increment = Quantity::from(1)`, margins defaulting to zero and
`min_quantity` defaulting to `Quantity::from(1)` when omitted. -/
def FuturesContract.new_checked
    (id : InstrumentId) (raw_symbol : SymbolStr) (asset_class : AssetClass)
    (exchange : Option Ustr) (underlying : Ustr)
    (activation_ns expiration_ns : UnixNanos) (currency : Currency)
    (price_precision : Nat) (price_increment : Price)
    (multiplier lot_size : Quantity)
    (max_quantity min_quantity : Option Quantity)
    (max_price min_price : Option Price)
    (margin_init margin_maint : Option Decimal)
    (ts_event ts_init : UnixNanos) : RResult String FuturesContract :=
  match check_valid_string_optional exchange ("isin") with
  | .err e => .err e
  | .panic s => .panic s
  | .ok _ =>
    match check_valid_string underlying ("underlying") with
    | .err e => .err e
    | .panic s => .panic s
    | .ok _ =>
      match check_equal_u8 price_precision price_increment.precision
          ("price_precision") ("price_increment.precision") with
      | .err e => .err e
      | .panic s => .panic s
      | .ok _ =>
        match check_positive_i64 price_increment.raw ("price_increment.raw") with
        | .err e => .err e
        | .panic s => .panic s
        | .ok _ =>
          .ok ⟨id, raw_symbol, asset_class, exchange, underlying,
            activation_ns, expiration_ns, currency, price_precision,
            price_increment, Quantity.fromNat 1, 0, multiplier, lot_size,
            margin_init.getD 0, margin_maint.getD 0, max_quantity,
            some (min_quantity.getD (Quantity.fromNat 1)), max_price, min_price,
            ts_event, ts_init⟩


/-- C2: for every pair of `Money` values whose currencies differ, `x + y`,
`x - y`, `x += y`, and `x -= y` each abort fatally and never produce a
resulting `Money` value. -/
theorem money_cross_currency_arithmetic_panics (x y : Money)
    (h : x.currency ≠ y.currency) :
    (Money.add x y).isPanic = true ∧ (Money.sub x y).isPanic = true ∧
    (Money.add_assign x y).isPanic = true ∧ (Money.sub_assign x y).isPanic = true := by
  simp [Money.add, Money.sub, Money.add_assign, Money.sub_assign, h, RResult.isPanic]

/-- Witness for C2 at concrete USD/BTC operands. -/
theorem money_cross_currency_arithmetic_panics_witness :
    (Money.add (Money.from_raw 100 Currency.USD) (Money.from_raw 100 Currency.BTC)).isPanic = true ∧
    (Money.sub (Money.from_raw 100 Currency.USD) (Money.from_raw 100 Currency.BTC)).isPanic = true ∧
    (Money.add_assign (Money.from_raw 100 Currency.USD) (Money.from_raw 100 Currency.BTC)).isPanic = true ∧
    (Money.sub_assign (Money.from_raw 100 Currency.USD) (Money.from_raw 100 Currency.BTC)).isPanic = true :=
  money_cross_currency_arithmetic_panics _ _ (by decide)

/-- C3: for equal-currency operands whose raw sum (resp. difference) lies
outside the `i64` range, addition (resp. subtraction) aborts fatally via the
overflow check and never returns any value, wrapped or otherwise. -/
theorem money_checked_arithmetic_never_wraps (x y : Money)
    (hc : x.currency = y.currency) :
    (¬ (I64_MIN ≤ x.raw + y.raw ∧ x.raw + y.raw ≤ I64_MAX) →
      Money.add x y = .panic ("Overflow occurred when adding Money") ∧
      ∀ m : Money, Money.add x y ≠ .ok m) ∧
    (¬ (I64_MIN ≤ x.raw - y.raw ∧ x.raw - y.raw ≤ I64_MAX) →
      Money.sub x y = .panic ("Underflow occurred when subtracting Money") ∧
      ∀ m : Money, Money.sub x y ≠ .ok m) := by
  constructor
  · intro ho
    have : Money.add x y = .panic ("Overflow occurred when adding Money") := by
      unfold Money.add checked_add_i64
      rw [if_pos hc, if_neg ho]
    exact ⟨this, by simp [this]⟩
  · intro ho
    have : Money.sub x y = .panic ("Underflow occurred when subtracting Money") := by
      unfold Money.sub checked_sub_i64
      rw [if_pos hc, if_neg ho]
    exact ⟨this, by simp [this]⟩

/-- Witness for C3 at two maximal-amount USD values (raw `MONEY_MAX · 10^9`),
whose sum and whose difference against the minimal amount overflow `i64`. -/
theorem money_checked_arithmetic_never_wraps_witness :
    Money.add (Money.from_raw 9223372036000000000 Currency.USD)
      (Money.from_raw 9223372036000000000 Currency.USD) =
      .panic ("Overflow occurred when adding Money") :=
  ((money_checked_arithmetic_never_wraps
    (Money.from_raw 9223372036000000000 Currency.USD)
    (Money.from_raw 9223372036000000000 Currency.USD) rfl).1 (by decide)).1

/-- C4: `Money::new_checked` returns a recoverable range error exactly when
the amount lies outside `[-9223372036, 9223372036]`; inside the range it
returns the `Money` whose raw value is the amount scaled to the currency's
precision, rounded to the nearest integer tick, and rescaled to the fixed
raw scale. -/
theorem money_new_checked_range (amount : ℚ) (c : Currency) :
    ((∃ e, Money.new_checked amount c = .err e) ↔
      ¬ (-9223372036 ≤ amount ∧ amount ≤ 9223372036)) ∧
    ((-9223372036 ≤ amount ∧ amount ≤ 9223372036) →
      Money.new_checked amount c =
        .ok ⟨roundAway (amount * 10 ^ c.precision) * 10 ^ (9 - c.precision), c⟩) := by
  have hok : ∀ _ : -9223372036 ≤ amount ∧ amount ≤ 9223372036,
      Money.new_checked amount c =
        .ok ⟨roundAway (amount * 10 ^ c.precision) * 10 ^ (9 - c.precision), c⟩ := by
    intro hr
    unfold Money.new_checked check_in_range_inclusive_f64
    simp only [MONEY_MIN, MONEY_MAX, f64_to_fixed_i64, FIXED_PRECISION]
    rw [if_pos hr]
  have herr : ∀ _ : ¬ (-9223372036 ≤ amount ∧ amount ≤ 9223372036),
      Money.new_checked amount c =
        .err ("invalid f64 for " ++ "amount" ++ ", not in inclusive range") := by
    intro hr
    unfold Money.new_checked check_in_range_inclusive_f64
    simp only [MONEY_MIN, MONEY_MAX]
    rw [if_neg hr]
  constructor
  · constructor
    · rintro ⟨e, he⟩ hr
      rw [hok hr] at he
      cases he
    · intro hr
      exact ⟨_, herr hr⟩
  · exact hok

/-- Witness for C4: the in-range amount `123.45` in USD yields raw
`12345 · 10^7`. -/
theorem money_new_checked_range_witness :
    Money.new_checked (2469 / 20 : ℚ) Currency.USD =
      .ok ⟨roundAway ((2469 / 20 : ℚ) * 10 ^ Currency.USD.precision) *
        10 ^ (9 - Currency.USD.precision), Currency.USD⟩ :=
  (money_new_checked_range (2469 / 20 : ℚ) Currency.USD).2 (by norm_num)

/-- C8: the ordering comparisons (`lt`, `le`, `gt`, `ge`, `cmp`) assert equal
currency and abort fatally on mismatch, and otherwise compare the raw values;
equality and hashing do not assert: `==` compares the `(raw, currency)` pair
and returns `false` on mismatched currencies without aborting, and the hasher
is fed exactly the `(raw, currency)` pair. -/
theorem money_comparison_policy (x y : Money) :
    (x.currency ≠ y.currency →
      (Money.lt x y).isPanic = true ∧ (Money.le x y).isPanic = true ∧
      (Money.gt x y).isPanic = true ∧ (Money.ge x y).isPanic = true ∧
      (Money.cmp x y).isPanic = true ∧ Money.beq x y = false) ∧
    (x.currency = y.currency →
      Money.lt x y = .ok (decide (x.raw < y.raw)) ∧
      Money.le x y = .ok (decide (x.raw ≤ y.raw)) ∧
      Money.gt x y = .ok (decide (y.raw < x.raw)) ∧
      Money.ge x y = .ok (decide (y.raw ≤ x.raw)) ∧
      Money.cmp x y = .ok (compare x.raw y.raw)) ∧
    (Money.beq x y = true ↔ x.raw = y.raw ∧ x.currency = y.currency) ∧
    Money.hashSeq x = (x.raw, x.currency) := by
  refine ⟨fun h => ?_, fun h => ?_, ?_, rfl⟩
  · simp [Money.lt, Money.le, Money.gt, Money.ge, Money.cmp, Money.beq, h, RResult.isPanic]
  · simp [Money.lt, Money.le, Money.gt, Money.ge, Money.cmp, h]
  · simp [Money.beq]

/-- Witness for C8 at concrete mismatched USD/BTC operands. -/
theorem money_comparison_policy_witness :
    (Money.lt (Money.from_raw 1 Currency.USD) (Money.from_raw 1 Currency.BTC)).isPanic = true ∧
    Money.beq (Money.from_raw 1 Currency.USD) (Money.from_raw 1 Currency.BTC) = false :=
  ⟨((money_comparison_policy (Money.from_raw 1 Currency.USD)
      (Money.from_raw 1 Currency.BTC)).1 (by decide)).1,
    ((money_comparison_policy (Money.from_raw 1 Currency.USD)
      (Money.from_raw 1 Currency.BTC)).1 (by decide)).2.2.2.2.2⟩

/-- C9: for every `Money` satisfying the documented range invariant
(the raw value decodes to an amount within `[MONEY_MIN, MONEY_MAX]`),
`x + (-x)` succeeds — negation preserves the currency — and the sum's raw
component is exactly `0`. -/
theorem money_add_neg_raw_zero (x : Money)
    (hlo : -(9223372036 * 10 ^ 9) ≤ x.raw) (hhi : x.raw ≤ 9223372036 * 10 ^ 9) :
    Money.add x (Money.neg x) = .ok ⟨0, x.currency⟩ := by
  have hne : x.raw ≠ I64_MIN := by
    simp only [I64_MIN]
    omega
  have hmk : Money.neg x = ⟨-x.raw, x.currency⟩ := by
    simp [Money.neg, neg_i64, hne]
  have h0 : x.raw + -x.raw = 0 := by ring
  rw [hmk]
  unfold Money.add checked_add_i64
  rw [if_pos rfl]
  simp only [h0]
  rw [if_pos (by decide)]

/-- Witness for C9 at a concrete USD value. -/
theorem money_add_neg_raw_zero_witness :
    Money.add (Money.from_raw 12345 Currency.USD)
      (Money.neg (Money.from_raw 12345 Currency.USD)) =
      .ok ⟨0, Currency.USD⟩ :=
  money_add_neg_raw_zero (Money.from_raw 12345 Currency.USD)
    (by decide) (by decide)

lemma charToDigitD_digitChar {d : Nat} (h : d < 10) : charToDigitD (digitChar d) = d := by
  interval_cases d <;> rfl

lemma isDigitChar_digitChar {d : Nat} (h : d < 10) : isDigitChar (digitChar d) = true := by
  interval_cases d <;> rfl

lemma isWsChar_false_of_digit {c : Char} (h : isDigitChar c = true) : isWsChar c = false := by
  cases hb : isWsChar c
  · rfl
  · exfalso
    simp only [isWsChar, Bool.or_eq_true, decide_eq_true_eq] at hb
    rcases hb with ((h1 | h1) | h1) | h1 <;> subst h1 <;> exact absurd h (by decide)

lemma ne_minus_of_digit {c : Char} (h : isDigitChar c = true) : c ≠ '-' := by
  intro h1
  subst h1
  exact absurd h (by decide)

lemma ne_plus_of_digit {c : Char} (h : isDigitChar c = true) : c ≠ '+' := by
  intro h1
  subst h1
  exact absurd h (by decide)

lemma ne_underscore_of_digit {c : Char} (h : isDigitChar c = true) : c ≠ '_' := by
  intro h1
  subst h1
  exact absurd h (by decide)

lemma natToChars_ne_nil (v : Nat) : natToChars v ≠ [] := by
  unfold natToChars
  split
  · simp
  · rename_i hv
    simp only [ne_eq, List.reverse_eq_nil_iff, List.map_eq_nil_iff]
    exact Nat.digits_ne_nil_iff_ne_zero.mpr hv

lemma natToChars_all_digit {v : Nat} : ∀ c ∈ natToChars v, isDigitChar c = true := by
  intro c hc
  unfold natToChars at hc
  split at hc
  · simp at hc
    subst hc
    decide
  · rw [List.mem_reverse, List.mem_map] at hc
    obtain ⟨d, hd, rfl⟩ := hc
    exact isDigitChar_digitChar (Nat.digits_lt_base (by norm_num) hd)

lemma digitsVal_natToChars (v : Nat) : digitsVal (natToChars v) = v := by
  unfold digitsVal natToChars
  split
  · rename_i hv
    subst hv
    decide
  · rw [List.map_reverse, List.reverse_reverse, List.map_map]
    have hmap : ((Nat.digits 10 v).map (charToDigitD ∘ digitChar)) = Nat.digits 10 v := by
      conv_rhs => rw [← List.map_id (Nat.digits 10 v)]
      apply List.map_congr_left
      intro d hd
      exact charToDigitD_digitChar (Nat.digits_lt_base (by norm_num) hd)
    rw [hmap, Nat.ofDigits_digits]

lemma ofDigits_replicate_zero (b k : Nat) : Nat.ofDigits b (List.replicate k 0) = 0 := by
  induction k with
  | zero => rfl
  | succ k ih => simp [List.replicate_succ, Nat.ofDigits_cons, ih]

lemma padDigits_all_digit {r p : Nat} : ∀ c ∈ padDigits r p, isDigitChar c = true := by
  intro c hc
  unfold padDigits at hc
  rw [List.mem_append] at hc
  rcases hc with hc | hc
  · rw [List.mem_replicate] at hc
    rw [hc.2]
    decide
  · exact natToChars_all_digit c hc

lemma digitsVal_padDigits (r p : Nat) : digitsVal (padDigits r p) = r := by
  unfold digitsVal padDigits
  rw [List.map_append, List.reverse_append, Nat.ofDigits_append]
  have hrep : ((List.replicate (p - (natToChars r).length) '0').map charToDigitD).reverse =
      List.replicate (p - (natToChars r).length) 0 := by
    rw [List.map_replicate, List.reverse_replicate]
    rfl
  rw [hrep, ofDigits_replicate_zero, Nat.mul_zero, Nat.add_zero]
  exact digitsVal_natToChars r

lemma natToChars_length_le {r p : Nat} (hr : r < 10 ^ p) (hp : 0 < p) :
    (natToChars r).length ≤ p := by
  unfold natToChars
  split
  · simpa using hp
  · rename_i hrne
    rw [List.length_reverse, List.length_map]
    rw [Nat.digits_len 10 r (by norm_num) hrne]
    exact Nat.log_lt_of_lt_pow hrne hr

lemma padDigits_length {r p : Nat} (hr : r < 10 ^ p) (hp : 0 < p) :
    (padDigits r p).length = p := by
  unfold padDigits
  rw [List.length_append, List.length_replicate]
  have := natToChars_length_le hr hp
  omega

lemma takeWhile_append_stop {q : Char → Bool} {l r : List Char} {b : Char}
    (hl : ∀ a ∈ l, q a = true) (hb : q b = false) :
    (l ++ b :: r).takeWhile q = l ∧ (l ++ b :: r).dropWhile q = b :: r := by
  induction l with
  | nil => simp [List.takeWhile_cons, List.dropWhile_cons, hb]
  | cons c cs ih =>
    have hc : q c = true := hl c (by simp)
    have ihh := ih (fun a ha => hl a (by simp [ha]))
    simp [List.takeWhile_cons, List.dropWhile_cons, hc, ihh.1, ihh.2]

lemma isEmpty_false_of_ne_nil {l : List Char} (h : l ≠ []) : l.isEmpty = false := by
  cases l
  · exact absurd rfl h
  · rfl

lemma parseUDec_fmtFixedNat (v p : Nat) :
    parseUDec (fmtFixedNat v p) = some ((v : ℚ) / 10 ^ p) := by
  rcases Nat.eq_zero_or_pos p with hp | hp
  · subst hp
    have hform : fmtFixedNat v 0 = natToChars v := by
      simp [fmtFixedNat]
    rw [hform]
    simp only [parseUDec]
    rw [List.dropWhile_eq_nil_iff.mpr natToChars_all_digit,
      List.takeWhile_eq_self_iff.mpr natToChars_all_digit,
      isEmpty_false_of_ne_nil (natToChars_ne_nil v)]
    simp [digitsVal_natToChars]
  · have hpne : p ≠ 0 := by omega
    have hform : fmtFixedNat v p =
        natToChars (v / 10 ^ p) ++ '.' :: padDigits (v % 10 ^ p) p := by
      simp [fmtFixedNat, hpne]
    have hsplit := takeWhile_append_stop (q := isDigitChar)
      (l := natToChars (v / 10 ^ p)) (r := padDigits (v % 10 ^ p) p) (b := '.')
      natToChars_all_digit (by decide)
    have hmod : v % 10 ^ p < 10 ^ p := Nat.mod_lt _ (by positivity)
    have hlen : (padDigits (v % 10 ^ p) p).length = p := padDigits_length hmod hp
    rw [hform]
    simp only [parseUDec, hsplit.1, hsplit.2]
    simp only [List.all_eq_true.mpr padDigits_all_digit,
      isEmpty_false_of_ne_nil (natToChars_ne_nil (v / 10 ^ p)),
      Bool.not_false, Bool.true_or, Bool.and_self, if_true, reduceIte]
    rw [digitsVal_natToChars, digitsVal_padDigits, hlen]
    have h10 : ((10 : ℚ) ^ p) ≠ 0 := by positivity
    have key : ((v / 10 ^ p : ℕ) : ℚ) * 10 ^ p + ((v % 10 ^ p : ℕ) : ℚ) = (v : ℚ) := by
      have hdm : 10 ^ p * (v / 10 ^ p) + v % 10 ^ p = v := Nat.div_add_mod v (10 ^ p)
      have hq := congrArg (fun k : ℕ => (k : ℚ)) hdm
      push_cast at hq
      linarith [hq]
    refine congrArg some ?_
    rw [eq_div_iff h10, add_mul, div_mul_cancel₀ _ h10]
    exact key

lemma fmtFixedNat_head_digit (v p : Nat) :
    ∃ c t, fmtFixedNat v p = c :: t ∧ isDigitChar c = true := by
  obtain ⟨c, t, hct⟩ := List.exists_cons_of_ne_nil (natToChars_ne_nil (v / 10 ^ p))
  refine ⟨c, t ++ (if p = 0 then [] else '.' :: padDigits (v % 10 ^ p) p), ?_, ?_⟩
  · unfold fmtFixedNat
    rw [hct]
    rfl
  · exact natToChars_all_digit c (by rw [hct]; simp)

lemma parseF64_fmtFixed (n : Int) (p : Nat) :
    parseF64 (fmtFixed n p) = some ((n : ℚ) / 10 ^ p) := by
  rcases lt_or_ge n 0 with hn | hn
  · have hform : fmtFixed n p = '-' :: fmtFixedNat n.natAbs p := by
      simp [fmtFixed, hn]
    rw [hform]
    simp only [parseF64, if_true, reduceIte]
    rw [parseUDec_fmtFixedNat]
    have hcast : ((n.natAbs : ℕ) : ℚ) = -(n : ℚ) := by
      rw [Int.cast_natAbs, abs_of_neg hn, Int.cast_neg]
    simp only [Option.map_some']
    rw [hcast]
    congr 1
    ring
  · have hform : fmtFixed n p = fmtFixedNat n.natAbs p := by
      simp [fmtFixed, not_lt.mpr hn]
    obtain ⟨c, t, hct, hcd⟩ := fmtFixedNat_head_digit n.natAbs p
    rw [hform, hct]
    simp only [parseF64]
    rw [if_neg (ne_minus_of_digit hcd), if_neg (ne_plus_of_digit hcd), ← hct,
      parseUDec_fmtFixedNat]
    have hcast : ((n.natAbs : ℕ) : ℚ) = (n : ℚ) := by
      rw [Int.cast_natAbs, abs_of_nonneg hn]
    rw [hcast]

lemma mem_fmtFixed {c : Char} {n : Int} {p : Nat} (hc : c ∈ fmtFixed n p) :
    isDigitChar c = true ∨ c = '-' ∨ c = '.' := by
  unfold fmtFixed fmtFixedNat at hc
  rw [List.mem_append] at hc
  rcases hc with hc | hc
  · split at hc
    · right
      left
      simpa using hc
    · simp at hc
  · rw [List.mem_append] at hc
    rcases hc with hc | hc
    · left
      exact natToChars_all_digit c hc
    · split at hc
      · simp at hc
      · simp only [List.mem_cons] at hc
        rcases hc with hc | hc
        · right
          right
          exact hc
        · left
          exact padDigits_all_digit c hc

lemma fmtFixed_no_ws {n : Int} {p : Nat} : ∀ c ∈ fmtFixed n p, isWsChar c = false := by
  intro c hc
  rcases mem_fmtFixed hc with h | h | h
  · exact isWsChar_false_of_digit h
  · subst h
    decide
  · subst h
    decide

lemma fmtFixed_no_underscore {n : Int} {p : Nat} :
    ∀ c ∈ fmtFixed n p, (c != '_') = true := by
  intro c hc
  rcases mem_fmtFixed hc with h | h | h
  · simpa [bne_iff_ne] using ne_underscore_of_digit h
  · subst h
    decide
  · subst h
    decide

lemma fmtFixed_ne_nil (n : Int) (p : Nat) : fmtFixed n p ≠ [] := by
  obtain ⟨c, t, hct, _⟩ := fmtFixedNat_head_digit n.natAbs p
  unfold fmtFixed
  rw [hct]
  intro h
  rcases List.append_eq_nil.mp h with ⟨_, h2⟩
  exact List.cons_ne_nil c t h2

lemma filter_eq_self_of_all {q : Char → Bool} {l : List Char}
    (h : ∀ a ∈ l, q a = true) : l.filter q = l := by
  induction l with
  | nil => rfl
  | cons c cs ih =>
    rw [List.filter_cons, if_pos (h c (by simp))]
    rw [ih (fun a ha => h a (by simp [ha]))]

lemma splitWsAux_nonws (A : List Char) (hA : ∀ c ∈ A, isWsChar c = false) :
    ∀ (rest acc : List Char), splitWsAux (A ++ rest) acc = splitWsAux rest (A.reverse ++ acc) := by
  induction A with
  | nil =>
    intro rest acc
    simp
  | cons c cs ih =>
    intro rest acc
    have hc : isWsChar c = false := hA c (by simp)
    rw [List.cons_append]
    simp only [splitWsAux, hc, Bool.false_eq_true, if_false]
    rw [ih (fun a ha => hA a (by simp [ha])) rest (c :: acc)]
    simp [List.append_assoc]

lemma splitWs_pair (A B : List Char) (hAne : A ≠ []) (hBne : B ≠ [])
    (hA : ∀ c ∈ A, isWsChar c = false) (hB : ∀ c ∈ B, isWsChar c = false) :
    splitWs (A ++ ' ' :: B) = [A, B] := by
  unfold splitWs
  rw [splitWsAux_nonws A hA (' ' :: B) []]
  have hacc : (A.reverse ++ ([] : List Char)).isEmpty = false := by
    rw [List.append_nil]
    exact isEmpty_false_of_ne_nil (fun h => hAne (List.reverse_eq_nil_iff.mp h))
  simp only [splitWsAux, hacc, Bool.false_eq_true, if_false]
  rw [if_pos (by decide)]
  have hrest : splitWsAux B [] = [B] := by
    have h1 := splitWsAux_nonws B hB [] []
    rw [List.append_nil] at h1
    rw [h1]
    simp only [splitWsAux]
    rw [isEmpty_false_of_ne_nil (fun h => hBne (by simpa using h))]
    simp
  rw [hrest]
  simp

lemma roundAway_intCast (n : Int) : roundAway ((n : ℚ)) = n := by
  have h12 : ⌊(1 / 2 : ℚ)⌋ = 0 := by norm_num
  unfold roundAway
  split
  · rw [Int.floor_int_add, h12, add_zero]
  · have hcast : -(n : ℚ) = ((-n : ℤ) : ℚ) := by push_cast; ring
    rw [hcast, Int.floor_int_add, h12, add_zero, neg_neg]

lemma money_new_checked_ok {a : ℚ} (c : Currency)
    (h : -9223372036 ≤ a ∧ a ≤ 9223372036) :
    Money.new_checked a c = .ok ⟨f64_to_fixed_i64 a c.precision, c⟩ := by
  unfold Money.new_checked check_in_range_inclusive_f64
  simp only [MONEY_MIN, MONEY_MAX]
  rw [if_pos h]

lemma money_new_checked_err {a : ℚ} (c : Currency)
    (h : ¬ (-9223372036 ≤ a ∧ a ≤ 9223372036)) :
    Money.new_checked a c =
      .err ("invalid f64 for " ++ "amount" ++ ", not in inclusive range") := by
  unfold Money.new_checked check_in_range_inclusive_f64
  simp only [MONEY_MIN, MONEY_MAX]
  rw [if_neg h]

lemma money_new_ok {a : ℚ} (c : Currency)
    (h : -9223372036 ≤ a ∧ a ≤ 9223372036) :
    Money.new a c = .ok ⟨f64_to_fixed_i64 a c.precision, c⟩ := by
  unfold Money.new
  rw [money_new_checked_ok c h]

lemma money_new_panic {a : ℚ} (c : Currency)
    (h : ¬ (-9223372036 ≤ a ∧ a ≤ 9223372036)) :
    Money.new a c =
      .panic ("Condition failed: " ++
        ("invalid f64 for " ++ "amount" ++ ", not in inclusive range")) := by
  unfold Money.new
  rw [money_new_checked_err c h]

lemma f64_fixed_exact (n : Int) (p : Nat) :
    f64_to_fixed_i64 ((n : ℚ) / 10 ^ p) p = n * 10 ^ (9 - p) := by
  unfold f64_to_fixed_i64 FIXED_PRECISION
  have h10 : ((10 : ℚ) ^ p) ≠ 0 := by positivity
  rw [div_mul_cancel₀ _ h10, roundAway_intCast]

lemma as_f64_scaled {p : Nat} (n : Int) (hp : p ≤ 9) :
    fixed_i64_to_f64 (n * 10 ^ (9 - p)) * 10 ^ p = (n : ℚ) := by
  unfold fixed_i64_to_f64 FIXED_PRECISION
  have h9 : (9 - p) + p = 9 := by omega
  push_cast
  rw [div_mul_eq_mul_div, mul_assoc, ← pow_add, h9]
  rw [mul_div_assoc, div_self (by positivity), mul_one]

lemma toString_scaled (c : Currency) (n : Int) (hp : c.precision ≤ 9) :
    Money.toString ⟨n * 10 ^ (9 - c.precision), c⟩ =
      fmtFixed n c.precision ++ ' ' :: c.code := by
  unfold Money.toString fmtF64 Money.as_f64
  dsimp only
  rw [as_f64_scaled n hp, roundAway_intCast]

/-- C1: for every registry currency `c` with `precision ≤ 9` and every amount
`n / 10^precision` representable at that precision and lying within
`[MONEY_MIN, MONEY_MAX]`, `Money::new` produces the exact raw value
`n · 10^(9 - precision)` and parsing the canonical textual form printed by
`to_string` reconstructs exactly that `Money`. -/
theorem money_to_string_round_trip (c : Currency) (n : Int)
    (hreg : Currency.from_str c.code = .ok c)
    (hcne : c.code ≠ [])
    (hcws : ∀ ch ∈ c.code, isWsChar ch = false)
    (hp : c.precision ≤ 9)
    (hlo : -9223372036 ≤ (n : ℚ) / 10 ^ c.precision)
    (hhi : (n : ℚ) / 10 ^ c.precision ≤ 9223372036) :
    Money.new ((n : ℚ) / 10 ^ c.precision) c = .ok ⟨n * 10 ^ (9 - c.precision), c⟩ ∧
    Money.from_str (Money.toString ⟨n * 10 ^ (9 - c.precision), c⟩) =
      .ok ⟨n * 10 ^ (9 - c.precision), c⟩ := by
  have hnew : Money.new ((n : ℚ) / 10 ^ c.precision) c =
      .ok ⟨n * 10 ^ (9 - c.precision), c⟩ := by
    rw [money_new_ok c ⟨hlo, hhi⟩, f64_fixed_exact]
  refine ⟨hnew, ?_⟩
  rw [toString_scaled c n hp]
  simp only [Money.from_str,
    splitWs_pair _ _ (fmtFixed_ne_nil n c.precision) hcne fmtFixed_no_ws hcws,
    filter_eq_self_of_all fmtFixed_no_underscore, parseF64_fmtFixed, hreg]
  exact hnew

/-- Witness for C1: the USD amount `123.45` (n = 12345 at precision 2). -/
theorem money_to_string_round_trip_witness :
    Money.new ((12345 : ℚ) / 10 ^ Currency.USD.precision) Currency.USD =
      .ok ⟨12345 * 10 ^ (9 - Currency.USD.precision), Currency.USD⟩ ∧
    Money.from_str
        (Money.toString ⟨12345 * 10 ^ (9 - Currency.USD.precision), Currency.USD⟩) =
      .ok ⟨12345 * 10 ^ (9 - Currency.USD.precision), Currency.USD⟩ :=
  money_to_string_round_trip Currency.USD 12345 (by decide) (by decide)
    (by decide) (by decide) (by norm_num [Currency.USD]) (by norm_num [Currency.USD])

/-- C5 counterexample: the well-formed input `"99999999999 USD"` (two tokens,
parseable amount, known currency) drives `Money::from_str` into the fatal
abort of `Money::new`, because the amount exceeds `MONEY_MAX`; `from_str` is
therefore not free of fatal failures. -/
theorem money_from_str_out_of_range_panics :
    (Money.from_str
      ['9', '9', '9', '9', '9', '9', '9', '9', '9', '9', '9', ' ', 'U', 'S', 'D']).isPanic =
      true := by
  decide

/-- C5 (amended): `Money::from_str` yields recoverable descriptive errors for
a token count other than two, an amount token unparseable after stripping
underscore separators, and an unknown currency code, and succeeds on two
tokens with a parseable in-range amount and known currency; but an amount
that parses and lies outside `[MONEY_MIN, MONEY_MAX]` aborts fatally via
`Money::new` instead of producing a recoverable error. -/
theorem money_from_str_behavior (value : List Char) :
    (∀ a b, splitWs value = [a, b] →
      (parseF64 (a.filter (fun c => c != '_')) = none →
        Money.from_str value = .err ("Error parsing amount as f64")) ∧
      (∀ q, parseF64 (a.filter (fun c => c != '_')) = some q →
        (∀ e, Currency.from_str b = .err e → Money.from_str value = .err e) ∧
        (∀ cur, Currency.from_str b = .ok cur →
          ((-9223372036 ≤ q ∧ q ≤ 9223372036) →
            Money.from_str value = .ok ⟨f64_to_fixed_i64 q cur.precision, cur⟩) ∧
          (¬ (-9223372036 ≤ q ∧ q ≤ 9223372036) →
            (Money.from_str value).isPanic = true)))) ∧
    ((¬ ∃ a b, splitWs value = [a, b]) →
      Money.from_str value = .err ("Error invalid input format, expected <amount> <currency>")) := by
  constructor
  · intro a b hab
    have hbase : Money.from_str value =
        (match parseF64 (a.filter (fun c => c != '_')) with
         | none => .err ("Error parsing amount as f64")
         | some amount =>
           match Currency.from_str b with
           | .err e => .err e
           | .panic s => .panic s
           | .ok currency => Money.new amount currency) := by
      unfold Money.from_str
      rw [hab]
    constructor
    · intro hnone
      rw [hbase, hnone]
    · intro q hq
      constructor
      · intro e he
        rw [hbase, hq, he]
      · intro cur hcur
        constructor
        · intro hr
          rw [hbase, hq, hcur]
          show Money.new q cur = _
          rw [money_new_ok cur hr]
        · intro hr
          rw [hbase, hq, hcur]
          show (Money.new q cur).isPanic = true
          rw [money_new_panic cur hr]
          rfl
  · intro hne
    unfold Money.from_str
    rcases hsp : splitWs value with _ | ⟨a, rest⟩
    · rfl
    · rcases rest with _ | ⟨b, rest2⟩
      · rfl
      · rcases rest2 with _ | ⟨d, rest3⟩
        · exact absurd ⟨a, b, hsp⟩ hne
        · rfl

/-- Witness for C5 (amended): the input `"0 USD"` parses recoverably and
succeeds. -/
theorem money_from_str_behavior_witness :
    Money.from_str ['0', ' ', 'U', 'S', 'D'] =
      .ok ⟨f64_to_fixed_i64 0 Currency.USD.precision, Currency.USD⟩ :=
  ((((money_from_str_behavior ['0', ' ', 'U', 'S', 'D']).1
    ['0'] ['U', 'S', 'D'] (by decide)).2 0 (by decide)).2
    Currency.USD (by decide)).1 (by norm_num)

/-- C6: `parse_bar_spec` takes the last `_`-separated segment as
`<step><unit>` with `step` the maximal leading digit run; a last segment with
no non-digit suffix (including the empty input, whose last segment is empty)
aborts with "Invalid bar spec", a digit run that fails integer parsing aborts
with "Invalid step", a suffix outside `{ms, s, m, ticks, vol}` aborts with
"Unsupported bar aggregation type", and a mapped suffix yields the
corresponding aggregation with `price_type` always `Last`. -/
theorem parse_bar_spec_characterization (value last : List Char)
    (hlast : (splitChar '_' value).getLast? = some last) :
    (last.findIdx? (fun c => !(isDigitChar c)) = none →
      parse_bar_spec value = .panic ("Invalid bar spec")) ∧
    (∀ i, last.findIdx? (fun c => !(isDigitChar c)) = some i →
      (parseUsize (last.take i) = none →
        parse_bar_spec value = .panic ("Invalid step")) ∧
      (∀ step, parseUsize (last.take i) = some step →
        (last.drop i = ['m', 's'] →
          parse_bar_spec value = .ok ⟨step, .Millisecond, .Last⟩) ∧
        (last.drop i = ['s'] →
          parse_bar_spec value = .ok ⟨step, .Second, .Last⟩) ∧
        (last.drop i = ['m'] →
          parse_bar_spec value = .ok ⟨step, .Minute, .Last⟩) ∧
        (last.drop i = ['t', 'i', 'c', 'k', 's'] →
          parse_bar_spec value = .ok ⟨step, .Tick, .Last⟩) ∧
        (last.drop i = ['v', 'o', 'l'] →
          parse_bar_spec value = .ok ⟨step, .Volume, .Last⟩) ∧
        (last.drop i ≠ ['m', 's'] → last.drop i ≠ ['s'] → last.drop i ≠ ['m'] →
          last.drop i ≠ ['t', 'i', 'c', 'k', 's'] → last.drop i ≠ ['v', 'o', 'l'] →
          parse_bar_spec value = .panic ("Unsupported bar aggregation type")))) := by
  have hbase : parse_bar_spec value =
      (match last.findIdx? (fun c => !(isDigitChar c)) with
       | none => .panic ("Invalid bar spec")
       | some split_idx =>
         match parseUsize (last.take split_idx) with
         | none => .panic ("Invalid step")
         | some step =>
           if last.drop split_idx = ['m', 's'] then .ok ⟨step, .Millisecond, .Last⟩
           else if last.drop split_idx = ['s'] then .ok ⟨step, .Second, .Last⟩
           else if last.drop split_idx = ['m'] then .ok ⟨step, .Minute, .Last⟩
           else if last.drop split_idx = ['t', 'i', 'c', 'k', 's'] then
             .ok ⟨step, .Tick, .Last⟩
           else if last.drop split_idx = ['v', 'o', 'l'] then
             .ok ⟨step, .Volume, .Last⟩
           else .panic ("Unsupported bar aggregation type")) := by
    unfold parse_bar_spec
    rw [hlast]
  constructor
  · intro hnone
    rw [hbase, hnone]
  · intro i hi
    have hbase2 : parse_bar_spec value =
        (match parseUsize (last.take i) with
         | none => .panic ("Invalid step")
         | some step =>
           if last.drop i = ['m', 's'] then .ok ⟨step, .Millisecond, .Last⟩
           else if last.drop i = ['s'] then .ok ⟨step, .Second, .Last⟩
           else if last.drop i = ['m'] then .ok ⟨step, .Minute, .Last⟩
           else if last.drop i = ['t', 'i', 'c', 'k', 's'] then
             .ok ⟨step, .Tick, .Last⟩
           else if last.drop i = ['v', 'o', 'l'] then .ok ⟨step, .Volume, .Last⟩
           else .panic ("Unsupported bar aggregation type")) := by
      rw [hbase, hi]
    constructor
    · intro hstep
      rw [hbase2, hstep]
    · intro step hstep
      have hbase3 : parse_bar_spec value =
          (if last.drop i = ['m', 's'] then .ok ⟨step, .Millisecond, .Last⟩
           else if last.drop i = ['s'] then .ok ⟨step, .Second, .Last⟩
           else if last.drop i = ['m'] then .ok ⟨step, .Minute, .Last⟩
           else if last.drop i = ['t', 'i', 'c', 'k', 's'] then
             .ok ⟨step, .Tick, .Last⟩
           else if last.drop i = ['v', 'o', 'l'] then .ok ⟨step, .Volume, .Last⟩
           else .panic ("Unsupported bar aggregation type")) := by
        rw [hbase2, hstep]
      refine ⟨?_, ?_, ?_, ?_, ?_, ?_⟩
      · intro hd
        rw [hbase3, hd, if_pos rfl]
      · intro hd
        rw [hbase3, hd, if_neg (by decide), if_pos rfl]
      · intro hd
        rw [hbase3, hd, if_neg (by decide), if_neg (by decide), if_pos rfl]
      · intro hd
        rw [hbase3, hd, if_neg (by decide), if_neg (by decide), if_neg (by decide),
          if_pos rfl]
      · intro hd
        rw [hbase3, hd, if_neg (by decide), if_neg (by decide), if_neg (by decide),
          if_neg (by decide), if_pos rfl]
      · intro h1 h2 h3 h4 h5
        rw [hbase3, if_neg h1, if_neg h2, if_neg h3, if_neg h4, if_neg h5]

/-- Witness for C6: `"trade_bar_10ms"` parses to step 10, millisecond
aggregation, price type Last. -/
theorem parse_bar_spec_characterization_witness :
    parse_bar_spec
        ['t', 'r', 'a', 'd', 'e', '_', 'b', 'a', 'r', '_', '1', '0', 'm', 's'] =
      .ok ⟨10, .Millisecond, .Last⟩ :=
  ((((parse_bar_spec_characterization
      ['t', 'r', 'a', 'd', 'e', '_', 'b', 'a', 'r', '_', '1', '0', 'm', 's']
      ['1', '0', 'm', 's'] (by decide)).2 2 (by decide)).2 10 (by decide)).1
    (by decide))

/-- C7: at the failing input — a present but all-whitespace exchange code,
all other fields valid — `FuturesContract::new_checked` rejects the exchange
field but the validation error names `isin`, a field that is not even a
parameter of the factory, rather than the offending `exchange` field. -/
theorem futures_contract_exchange_error_names_isin :
    FuturesContract.new_checked
        ⟨['E', 'S'], ['X']⟩ ['E', 'S'] AssetClass.Index (some [' ', ' '])
        ['E', 'S'] 0 0 Currency.USD 2 ⟨25, 2⟩ (Quantity.fromNat 1)
        (Quantity.fromNat 1) none none none none none none 0 0 =
      .err ("invalid string for " ++ "isin") := by
  rfl

/-- C10: `FuturesContract::new_checked` imposes no ordering between
`activation_ns` and `expiration_ns`: whenever the four validations pass,
construction succeeds and both timestamps are stored unchanged, with no
constraint relating them. -/
theorem futures_contract_timestamps_unconstrained
    (id : InstrumentId) (raw_symbol : SymbolStr) (asset_class : AssetClass)
    (exchange : Option Ustr) (underlying : Ustr)
    (activation_ns expiration_ns : UnixNanos) (currency : Currency)
    (price_precision : Nat) (price_increment : Price)
    (multiplier lot_size : Quantity)
    (max_quantity min_quantity : Option Quantity)
    (max_price min_price : Option Price)
    (margin_init margin_maint : Option Decimal)
    (ts_event ts_init : UnixNanos)
    (hex : ∀ v, exchange = some v → v.dropWhile isWsChar ≠ [])
    (hund : underlying.dropWhile isWsChar ≠ [])
    (hprec : price_precision = price_increment.precision)
    (hpos : 0 < price_increment.raw) :
    ∃ fc, FuturesContract.new_checked id raw_symbol asset_class exchange
        underlying activation_ns expiration_ns currency price_precision
        price_increment multiplier lot_size max_quantity min_quantity
        max_price min_price margin_init margin_maint ts_event ts_init =
        .ok fc ∧
      fc.activation_ns = activation_ns ∧ fc.expiration_ns = expiration_ns := by
  have h1 : check_valid_string_optional exchange ("isin") = .ok () := by
    cases exchange with
    | none => rfl
    | some v =>
      show check_valid_string v ("isin") = .ok ()
      unfold check_valid_string
      rw [if_neg (hex v rfl)]
  have h2 : check_valid_string underlying ("underlying") = .ok () := by
    unfold check_valid_string
    rw [if_neg hund]
  have h3 : check_equal_u8 price_precision price_increment.precision
      ("price_precision") ("price_increment.precision") = .ok () := by
    unfold check_equal_u8
    rw [if_pos hprec]
  have h4 : check_positive_i64 price_increment.raw ("price_increment.raw") =
      .ok () := by
    unfold check_positive_i64
    rw [if_pos hpos]
  have heq : FuturesContract.new_checked id raw_symbol asset_class exchange
      underlying activation_ns expiration_ns currency price_precision
      price_increment multiplier lot_size max_quantity min_quantity
      max_price min_price margin_init margin_maint ts_event ts_init =
      .ok ⟨id, raw_symbol, asset_class, exchange, underlying,
        activation_ns, expiration_ns, currency, price_precision,
        price_increment, Quantity.fromNat 1, 0, multiplier, lot_size,
        margin_init.getD 0, margin_maint.getD 0, max_quantity,
        some (min_quantity.getD (Quantity.fromNat 1)), max_price, min_price,
        ts_event, ts_init⟩ := by
    unfold FuturesContract.new_checked
    rw [h1, h2, h3, h4]
  exact ⟨_, heq, rfl, rfl⟩

/-- Witness for C10: a contract whose expiration (50 ns) is strictly earlier
than its activation (100 ns) is constructed successfully with both
timestamps stored unchanged. -/
theorem futures_contract_timestamps_unconstrained_witness :
    (∃ fc, FuturesContract.new_checked ⟨['E', 'S'], ['X']⟩ ['E', 'S']
        AssetClass.Index none ['E', 'S'] 100 50 Currency.USD 2 ⟨25, 2⟩
        (Quantity.fromNat 1) (Quantity.fromNat 1) none none none none
        none none 0 0 = .ok fc ∧
      fc.activation_ns = 100 ∧ fc.expiration_ns = 50) ∧
    (50 : UnixNanos) < 100 :=
  ⟨futures_contract_timestamps_unconstrained ⟨['E', 'S'], ['X']⟩ ['E', 'S']
      AssetClass.Index none ['E', 'S'] 100 50 Currency.USD 2 ⟨25, 2⟩
      (Quantity.fromNat 1) (Quantity.fromNat 1) none none none none
      none none 0 0 (fun v h => by cases h) (by decide) rfl (by decide),
    by decide⟩
